import Mathlib

/-!
Verification of the eap-war-watcher repository against its specification.

The file shallowly embeds the parts of the code base the claims touch:

* `ImageZoom` — the zoom/pan modal of `war-watcher-ui/src/components/ImageZoom.tsx`.
* `Api` — the helpers of `war-watcher-ui/src/lib/api.ts` and the skip-row
  parsing of `App.tsx` (`handleProcessAndExport`).
* `Imatch` — the image matching / cross-screenshot tracking engine.  Its
  source is not part of this snapshot (the repository README and the spec both
  state the engine's algorithms are described in prose only), so every
  definition in that namespace is modelled from the spec's wording.

Machine numbers are embedded as `ℚ`/`ℤ`/`ℕ`; fallible operations return
`Option`.  Definitions come first, then the theorems.
-/

namespace ImageZoom

/-- Transform state of the zoom dialog: `scale`, `tx` (translateX) and `ty`
(translateY), as held in the three `useState` hooks. -/
structure ZoomState where
  scale : ℚ
  tx : ℚ
  ty : ℚ
deriving DecidableEq, Repr

/-- `clamp` from `ImageZoom.tsx`: `Math.min(max, Math.max(min, v))`. -/
def clamp (v lo hi : ℚ) : ℚ := min hi (max lo v)

/-- `zoomBy` from `ImageZoom.tsx`: clamps the new scale to `[0.5, 4]` and,
when a cursor position is supplied, re-centers the translation around it. -/
def zoomBy (delta : ℚ) (center : Option (ℚ × ℚ)) (st : ZoomState) : ZoomState :=
  let next := clamp (st.scale + delta) (1/2) 4
  match center with
  | some (cx, cy) =>
      let k := next / st.scale
      { scale := next, tx := cx - k * (cx - st.tx), ty := cy - k * (cy - st.ty) }
  | none => { st with scale := next }

/-- `resetTransform` from `ImageZoom.tsx`: scale 1, translation 0. -/
def resetTransform : ZoomState := ⟨1, 0, 0⟩

/-- Initial hook values: `useState(1)`, `useState(0)`, `useState(0)`. -/
def initialState : ZoomState := ⟨1, 0, 0⟩

/-- The user interactions that can change the transform state. -/
inductive ZoomEvent
  | wheel (deltaYDown : Bool) (cx cy : ℚ)
  | keyPlus
  | keyMinus
  | keyZero
  | buttonZoomIn
  | buttonZoomOut
  | buttonReset
  | doubleClick (cx cy : ℚ)
  | drag (dx dy : ℚ)
deriving DecidableEq, Repr

/-- One event handler step, translated from the handlers in `ImageZoom.tsx`:
wheel uses `±0.2` around the pointer, keys and toolbar buttons use `±0.25`,
`0`/Reset call `resetTransform`, double-click toggles `1x ↔ 2x` at the
pointer, and dragging only moves the translation. -/
def step : ZoomEvent → ZoomState → ZoomState
  | .wheel down cx cy, st => zoomBy (if down then -(1/5) else 1/5) (some (cx, cy)) st
  | .keyPlus, st => zoomBy (1/4) none st
  | .keyMinus, st => zoomBy (-(1/4)) none st
  | .keyZero, _ => resetTransform
  | .buttonZoomIn, st => zoomBy (1/4) none st
  | .buttonZoomOut, st => zoomBy (-(1/4)) none st
  | .buttonReset, _ => resetTransform
  | .doubleClick cx cy, st =>
      if st.scale ≤ 1 then
        { scale := 2, tx := cx - 2 * (cx - st.tx), ty := cy - 2 * (cy - st.ty) }
      else resetTransform
  | .drag dx dy, st => { st with tx := st.tx + dx, ty := st.ty + dy }

/-- Run a whole interaction sequence from the initial state. -/
def run (evs : List ZoomEvent) : ZoomState :=
  evs.foldl (fun st e => step e st) initialState

end ImageZoom

namespace Api

/-! ### `extractLastScreenId` (`war-watcher-ui/src/lib/api.ts`)

JavaScript values reachable by the function are embedded as a nested
inductive: `null`, booleans, numbers (as `ℚ`), strings, arrays and plain
objects (ordered key/value lists, matching `Object.entries` order). -/

/-- A JSON-like JavaScript value, as traversed by `extractLastScreenId`. -/
inductive JsValue
  | null
  | boolean (b : Bool)
  | num (q : ℚ)
  | str (s : String)
  | arr (elems : List JsValue)
  | obj (fields : List (String × JsValue))
deriving Repr

/-- `v && typeof v === "object"` for a non-null value: true exactly for
arrays and objects (null is filtered by the truthiness check). -/
def isObjectLike : JsValue → Bool
  | .arr _ => true
  | .obj _ => true
  | _ => false

/-- `typeof v === "number"` with the numeric value, `none` otherwise. -/
def numVal : JsValue → Option ℚ
  | .num q => some q
  | _ => none

/-- The accumulator update `max = max == null ? v : Math.max(max, v)`. -/
def jsMax (m : Option ℚ) (v : ℚ) : Option ℚ :=
  match m with
  | none => some v
  | some q => some (max q v)

mutual
/-- The inner `walk` of `extractLastScreenId`, with the mutable `max`
captured as an explicit accumulator: primitives and `null` are ignored,
arrays are walked element-wise (`forEach`), objects field-wise. -/
def walk : JsValue → Option ℚ → Option ℚ
  | .arr xs, m => walkElems xs m
  | .obj fs, m => walkFields fs m
  | _, m => m
termination_by x _ => (sizeOf x, 0)
/-- `x.forEach(walk)` over an array's elements, left to right. -/
def walkElems : List JsValue → Option ℚ → Option ℚ
  | [], m => m
  | x :: xs, m => walkElems xs (walk x m)
termination_by xs _ => (sizeOf xs, 0)
/-- The `for (const [k, v] of Object.entries(x))` loop: a numeric value under
key `"screen_id"` updates the maximum; otherwise object-like values are
walked recursively. -/
def walkFields : List (String × JsValue) → Option ℚ → Option ℚ
  | [], m => m
  | (k, v) :: fs, m => walkFields fs (fieldStep k v m)
termination_by fs _ => (sizeOf fs, 0)
/-- The body of the `Object.entries` loop for a single `[k, v]` entry. -/
def fieldStep (k : String) (v : JsValue) (m : Option ℚ) : Option ℚ :=
  if k = "screen_id" then
    match numVal v with
    | some q => jsMax m q
    | none => if isObjectLike v then walk v m else m
  else if isObjectLike v then walk v m else m
termination_by (sizeOf v, 1)
end

/-- `extractLastScreenId` from `api.ts`: walk the payload, return the
running maximum (`null` when no numeric `screen_id` was seen). -/
def extractLastScreenId (payload : JsValue) : Option ℚ :=
  walk payload none

/-- The numeric value a single `[k, v]` entry itself contributes. -/
def idsAt (k : String) (v : JsValue) : List ℚ :=
  if k = "screen_id" then
    match numVal v with
    | some q => [q]
    | none => []
  else []

mutual
/-- Written from the claim's words, for comparison with the source-derived
`extractLastScreenId`: every numeric value stored under a key named
`"screen_id"` anywhere in the nested object/array structure. -/
def screenIds : JsValue → List ℚ
  | .arr xs => screenIdsElems xs
  | .obj fs => screenIdsFields fs
  | _ => []
/-- `screenIds` over an array's elements. -/
def screenIdsElems : List JsValue → List ℚ
  | [] => []
  | x :: xs => screenIds x ++ screenIdsElems xs
/-- `screenIds` over an object's fields: the field's own value when its key
is `"screen_id"` and it is numeric, plus everything nested below it. -/
def screenIdsFields : List (String × JsValue) → List ℚ
  | [] => []
  | (k, v) :: fs => (idsAt k v ++ screenIds v) ++ screenIdsFields fs
end

/-! ### Skip-row parsing (`App.tsx`, `handleProcessAndExport`) -/

/-- A JavaScript number as produced by `Number(...)`: `NaN`, the two
infinities, or a finite value. -/
inductive JsNum
  | nan
  | posInf
  | negInf
  | finite (q : ℚ)
deriving DecidableEq, Repr

/-- `Number.isFinite`. -/
def isFinite : JsNum → Bool
  | .finite _ => true
  | _ => false

/-- The JavaScript comparison `n > 0`. -/
def gtZero : JsNum → Bool
  | .finite q => decide (0 < q)
  | .posInf => true
  | _ => false

/-- Value of a decimal digit character. -/
def digitVal (c : Char) : Option ℕ :=
  if c.isDigit then some (c.toNat - 48) else none

/-- Value of a non-empty all-digit character list; `none` otherwise. -/
def digitsVal (cs : List Char) : Option ℕ :=
  cs.foldl
    (fun acc c =>
      match acc, digitVal c with
      | some n, some d => some (n * 10 + d)
      | _, _ => none)
    (if cs.isEmpty then none else some 0)

/-- Unsigned decimal literal `digits[.digits]`, as accepted by `Number`. -/
def parseUnsigned (cs : List Char) : Option ℚ :=
  let intPart := cs.takeWhile (fun c => c ≠ '.')
  match cs.dropWhile (fun c => c ≠ '.') with
  | [] => (digitsVal intPart).map (fun n => (n : ℚ))
  | _ :: frac =>
      if intPart.isEmpty && frac.isEmpty then none
      else
        match (if intPart.isEmpty then some 0 else digitsVal intPart),
              (if frac.isEmpty then some 0 else digitsVal frac) with
        | some n, some f => some ((n : ℚ) + (f : ℚ) / (10 : ℚ) ^ frac.length)
        | _, _ => none

/-- JavaScript whitespace, for `trim`. -/
def isJsSpace (c : Char) : Bool :=
  c = ' ' || c = '\t' || c = '\n' || c = '\r'

/-- `String.prototype.trim`: strip whitespace from both ends. -/
def trimChars (cs : List Char) : List Char :=
  ((cs.dropWhile isJsSpace).reverse.dropWhile isJsSpace).reverse

/-- `text.split(",")`: split on every comma, keeping empty pieces. -/
def splitOnComma : List Char → List (List Char)
  | [] => [[]]
  | c :: rest =>
      match splitOnComma rest with
      | [] => if c = ',' then [[], []] else [[c]]
      | cur :: others =>
          if c = ',' then [] :: cur :: others else (c :: cur) :: others

/-- `Number(...)` of a string, modelled on the decimal subset of the
JavaScript grammar (after trimming: the empty string is `0`, explicit
infinities, an optional sign, digits with an optional fraction; anything
else is `NaN`). -/
def jsNumber (s : List Char) : JsNum :=
  let t := trimChars s
  if t.isEmpty then .finite 0
  else if t = "Infinity".data || t = "+Infinity".data then .posInf
  else if t = "-Infinity".data then .negInf
  else
    match t with
    | '+' :: cs => (parseUnsigned cs).elim .nan .finite
    | '-' :: cs => (parseUnsigned cs).elim .nan (fun q => .finite (-q))
    | cs => (parseUnsigned cs).elim .nan .finite

/-- The `skipRows` computation of `handleProcessAndExport` in `App.tsx`:
split on commas, trim, drop empty entries (`filter(Boolean)`), convert with
`Number`, and keep only finite values strictly greater than zero. -/
def skipRowsOf (text : String) : List JsNum :=
  (((((splitOnComma text.data).map trimChars).filter
        (fun x => !x.isEmpty)).map jsNumber).filter
    (fun n => isFinite n && gtZero n))

end Api

namespace Imatch

/-! ### The imatch engine, modelled from the spec

The repository snapshot does not contain the engine's source (README: the
algorithms are "described in prose"; spec §2: "the algorithms are described
only in prose in the available material, not present as source in this
snapshot").  Every definition below therefore carries a doc comment naming
the spec passage it is modelled from. -/

/-- Modelled from the spec (§9, §4.4–4.6): the explicit configuration
structure of tunable weights and thresholds — blend coefficients, the
acceptance threshold, the tie-break margin, the suppression IoU bound, the
fingerprint and histogram distance thresholds, and the maximum plausible
delta for temporal validation. -/
structure Config where
  w1 : ℚ
  w2 : ℚ
  w3 : ℚ
  accThreshold : ℚ
  minMargin : ℚ
  iouBound : ℚ
  fpThreshold : ℕ
  histThreshold : ℕ
  maxDelta : ℤ
deriving DecidableEq, Repr

/-- An axis-aligned bounding box in working-resolution coordinates. -/
structure Box where
  x : ℚ
  y : ℚ
  w : ℚ
  h : ℚ
deriving DecidableEq, Repr

/-- Modelled from the spec (§3 RowBand): a vertical slice of a screenshot
believed to contain one player's data — bounding box, 1-based ordinal
position top-to-bottom, and the numeric value extracted from the row (the
input to temporal validation, §4.6). -/
structure RowBand where
  box : Box
  ordinal : ℕ
  value : ℤ
deriving DecidableEq, Repr

/-- Modelled from the spec (§3 FieldCrop): a numeric sub-region of an
accepted RowBand — column identity and shape-sanity score. -/
structure FieldCrop where
  column : ℕ
  shapeScore : ℚ
deriving DecidableEq, Repr

/-- Modelled from the spec (§3 MatchScore, §4.4): a surviving candidate
pair — a row band, the id of the track it is scored against, and the
blended match score. -/
structure Candidate where
  band : RowBand
  trackId : ℕ
  score : ℚ
deriving DecidableEq, Repr

/-- Modelled from the spec (§4.6): the per-track state machine
`NEW → ACTIVE → FLAGGED`. -/
inductive TrackState
  | NEW
  | ACTIVE
  | FLAGGED
deriving DecidableEq, Repr

/-- Modelled from the spec (§3 PlayerTrack): persistent cross-screenshot
identity with an append-only numeric history and a validation state. -/
structure PlayerTrack where
  id : ℕ
  history : List ℤ
  state : TrackState
deriving DecidableEq, Repr

/-- Modelled from the spec (§9): the arena of PlayerTrack records addressed
by an opaque id, plus the next fresh id. -/
structure TrackTable where
  tracks : List PlayerTrack
  nextId : ℕ
deriving DecidableEq, Repr

/-- Modelled from the spec (§7): the per-row reason codes surfaced in a
RowVerdict. -/
inductive Reason
  | skipped
  | matchAmbiguous
  | validationViolation
  | reviewFlagged
  | suppressed
deriving DecidableEq, Repr

/-- Modelled from the spec (§3 RowVerdict): per-row outcome — ordinal,
finalized geometry, matched track id (or none), FieldCrops, fused
confidence and a reason code when not cleanly accepted. -/
structure RowVerdict where
  ordinal : ℕ
  box : Box
  track : Option ℕ
  fieldCrops : List FieldCrop
  fused : ℚ
  reason : Option Reason
deriving DecidableEq, Repr

/-- Deterministic key-based sort (lexicographic on a `List ℚ` key) used
wherever the spec orders by score: with an injective key the result is
independent of arrival order (spec §5: "the suppression/commit order is by
score, not arrival order"). -/
def canonSort {α : Type} (key : α → List ℚ) (l : List α) : List α :=
  List.insertionSort (fun a b => key a ≤ key b) l

/-! #### CandidateMatcher (spec §4.3): fingerprint and histogram prefilter -/

/-- A grayscale crop as a grid of intensities. -/
abbrev Crop := List (List ℚ)

/-- Fuel-driven splitting of a row into blocks of `n` pixels. -/
def chunksAux (n : ℕ) : ℕ → List ℚ → List (List ℚ)
  | 0, _ => []
  | _, [] => []
  | fuel + 1, l => l.take n :: chunksAux n fuel (l.drop n)

/-- Split a row into blocks of `n` pixels (the down-sampling grid). -/
def chunks (n : ℕ) (l : List ℚ) : List (List ℚ) :=
  if n = 0 then [] else chunksAux n l.length l

/-- Exact rational division in a kernel-computable form: `a / b` written as
the integer ratio `(a.num * b.den) / (a.den * b.num)` (0 when `b = 0`);
`ratDiv_eq_div` below proves it equal to field division. -/
def ratDiv (a b : ℚ) : ℚ :=
  Rat.divInt (a.num * (b.den : ℤ)) ((a.den : ℤ) * b.num)

/-- Mean intensity of a block (0 for an empty block). -/
def blockMean (l : List ℚ) : ℚ :=
  if l.isEmpty then 0 else ratDiv l.sum (l.length : ℚ)

/-- Modelled from the spec (§4.3): the stabilized, down-sampled version of
a crop — each grid cell is the mean intensity of a small block. -/
def downsample (c : Crop) : Crop :=
  c.map (fun row => (chunks 4 row).map blockMean)

/-- One difference-hash row: each bit encodes whether a cell's mean is
greater than its neighbouring cell's mean. -/
def rowBits (l : List ℚ) : List Bool :=
  List.zipWith (fun a b => decide (b < a)) l l.tail

/-- Modelled from the spec (§4.3): the fixed-length binary perceptual
fingerprint (difference-hash style signature over the down-sampled grid). -/
def dHash (c : Crop) : List Bool :=
  ((downsample c).map rowBits).flatten

/-- Hamming distance between two fingerprints. -/
def hamming (a b : List Bool) : ℕ :=
  (List.zipWith (fun x y => x != y) a b).count true

/-- Modelled from the spec (§4.3): "retain pairs under a small distance
threshold" — the fingerprint gate of the prefilter. -/
def fingerprintPass (cfg : Config) (a b : List Bool) : Bool :=
  hamming a b < cfg.fpThreshold

/-- Modelled from the spec (§4.3): coarse intensity histogram (four bins). -/
def histogram (c : Crop) : List ℕ :=
  let vals := c.flatten
  [(vals.filter (fun v => decide (v < 64))).length,
   (vals.filter (fun v => decide (64 ≤ v ∧ v < 128))).length,
   (vals.filter (fun v => decide (128 ≤ v ∧ v < 192))).length,
   (vals.filter (fun v => decide (192 ≤ v))).length]

/-- L1 distance between two coarse histograms. -/
def histDist (h1 h2 : List ℕ) : ℕ :=
  (List.zipWith (fun a b => max a b - min a b) h1 h2).sum

/-- The histogram gate of the prefilter (spec §4.3, second threshold). -/
def histogramPass (cfg : Config) (h1 h2 : List ℕ) : Bool :=
  histDist h1 h2 < cfg.histThreshold

/-- Modelled from the spec (§4.3): the two-stage AND-gate cheap filter —
fingerprint distance and histogram distance must both be under their
thresholds. -/
def prefilterPass (cfg : Config) (c1 c2 : Crop) : Bool :=
  fingerprintPass cfg (dHash c1) (dHash c2) &&
    histogramPass cfg (histogram c1) (histogram c2)

/-! #### PreciseMatcher acceptability (spec §4.4): threshold and margin -/

/-- Modelled from the spec (§4.4): the outcome of deciding a row's best
match — an assignment, a reported near-tie, or no acceptable match. -/
inductive MatchDecision
  | assigned (trackId : ℕ) (score : ℚ)
  | ambiguous
  | noMatch
deriving DecidableEq, Repr

/-- Sort key for competing `(trackId, score)` pairs: score descending,
track id as deterministic tie-break. -/
def scoreKey (p : ℕ × ℚ) : List ℚ :=
  [-p.2, (p.1 : ℚ)]

/-- Competing scores ranked best-first. -/
def rankScores (scored : List (ℕ × ℚ)) : List (ℕ × ℚ) :=
  canonSort scoreKey scored

/-- Modelled from the spec (§4.4): a pair is acceptable only if its score
exceeds the acceptance threshold AND exceeds the second-best competing
score by the minimum margin; ambiguous near-ties are reported as
`MatchAmbiguous`, never silently resolved. -/
def decideAssignment (cfg : Config) (scored : List (ℕ × ℚ)) : MatchDecision :=
  match rankScores scored with
  | [] => .noMatch
  | (tid, best) :: rest =>
      if best ≤ cfg.accThreshold then .noMatch
      else
        match rest with
        | [] => .assigned tid best
        | (_, second) :: _ =>
            if cfg.minMargin ≤ best - second then .assigned tid best else .ambiguous

/-! #### ROIRefiner + Suppressor (spec §4.5) -/

/-- Length of the overlap of two intervals `[a1, a1+w1]` and `[a2, a2+w2]`. -/
def interLen (a1 w1 a2 w2 : ℚ) : ℚ :=
  max 0 (min (a1 + w1) (a2 + w2) - max a1 a2)

/-- Intersection area of two boxes. -/
def interArea (a b : Box) : ℚ :=
  interLen a.x a.w b.x b.w * interLen a.y a.h b.y b.h

/-- Union area of two boxes. -/
def unionArea (a b : Box) : ℚ :=
  a.w * a.h + b.w * b.h - interArea a b

/-- Intersection over union of two boxes (0 when the union is degenerate). -/
def iou (a b : Box) : ℚ :=
  if unionArea a b = 0 then 0 else ratDiv (interArea a b) (unionArea a b)

/-- An accepted `(RowBand, PlayerTrack-or-new)` pair with its score — the
input of the ROIRefiner + Suppressor stage (spec §4.5): `assign = some tid`
is a matched track, `assign = none` a new player. -/
structure Accepted where
  band : RowBand
  assign : Option ℕ
  score : ℚ
deriving DecidableEq, Repr

/-- Numeric code of an optional track id, for sort keys. -/
def optCode : Option ℕ → ℚ
  | none => 0
  | some n => (n : ℚ) + 1

/-- Sort key for suppression order: score descending, with the remaining
fields as deterministic tie-breaks. -/
def accKey (a : Accepted) : List ℚ :=
  [-a.score, (a.band.ordinal : ℚ), a.band.box.x, a.band.box.y, a.band.box.w,
   a.band.box.h, (a.band.value : ℚ), optCode a.assign]

/-- The candidate grid of local offsets for ROI nudging (spec §4.5: a small
local grid search over horizontal/vertical offset within tight bounds). -/
def nudges : List (ℚ × ℚ) := [(0, 0), (-1, 0), (1, 0), (0, -1), (0, 1)]

/-- Score of a nudged box: the blended score minus the crop-boundary drift
penalty of spec §4.4 (the image-dependent correlation gain is not in the
model, so drift is the deciding term). -/
def nudgedScore (s0 : ℚ) (d : ℚ × ℚ) : ℚ :=
  s0 - (d.1 * d.1 + d.2 * d.2)

/-- Modelled from the spec (§4.5): bounded hill-climb — pick the offset of
the local grid maximizing the (drift-penalized) score, deterministically. -/
def refineAccepted (a : Accepted) : Accepted :=
  match canonSort (fun d => [-(nudgedScore a.score d), d.1, d.2]) nudges with
  | [] => a
  | d :: _ =>
      { a with
        band := { a.band with
          box := { a.band.box with x := a.band.box.x + d.1, y := a.band.box.y + d.2 } },
        score := nudgedScore a.score d }

/-- One greedy acceptance test of non-maximum suppression: the candidate's
overlap with every already-accepted region must be below the IoU bound. -/
def nmsAccept (bound : ℚ) (accepted : List Accepted) (c : Accepted) : Bool :=
  accepted.all (fun a => iou a.band.box c.band.box < bound)

/-- Modelled from the spec (§4.5): non-maximum suppression — walk the
score-sorted candidates, greedily accepting a candidate only if its overlap
with every already-accepted region is below the IoU bound; rejected
candidates are dropped, not retried. -/
def nms (bound : ℚ) (sorted : List Accepted) : List Accepted :=
  sorted.foldl (fun acc c => if nmsAccept bound acc c then acc ++ [c] else acc) []

/-! #### Tracker / Validator (spec §4.6) -/

/-- Modelled from the spec (§4.6): accept a new numeric observation into a
track.  The first observation promotes `NEW` to `ACTIVE`.  A value that
decreases, or that exceeds the maximum plausible delta since the last
observation, moves the track to `FLAGGED` with a `ValidationViolation`;
flagged tracks keep accepting observations but every subsequent verdict
carries a review reason.  History is append-only. -/
def acceptObs (cfg : Config) (t : PlayerTrack) (v : ℤ) : PlayerTrack × Option Reason :=
  match t.history.getLast? with
  | none =>
      ({ t with history := t.history ++ [v], state := .ACTIVE }, none)
  | some last =>
      if v < last ∨ cfg.maxDelta < v - last then
        ({ t with history := t.history ++ [v], state := .FLAGGED },
         some .validationViolation)
      else
        let st := if t.state = .NEW then TrackState.ACTIVE else t.state
        let r : Option Reason := if t.state = .FLAGGED then some .reviewFlagged else none
        ({ t with history := t.history ++ [v], state := st }, r)

/-- Feed a track's whole observation history into the validator, starting
from a fresh `NEW` track, collecting the per-observation reasons. -/
def runHistory (cfg : Config) (vals : List ℤ) : PlayerTrack × List (Option Reason) :=
  vals.foldl
    (fun p v =>
      let step := acceptObs cfg p.1 v
      (step.1, p.2 ++ [step.2]))
    (⟨0, [], .NEW⟩, [])

/-- Update the track with the given id in the arena, returning the reason
raised by its validator (tracks are never deleted, spec §3). -/
def updateTracks (cfg : Config) : List PlayerTrack → ℕ → ℤ → List PlayerTrack × Option Reason
  | [], _, _ => ([], none)
  | t :: rest, tid, v =>
      if t.id = tid then
        let step := acceptObs cfg t v
        (step.1 :: rest, step.2)
      else
        let tail := updateTracks cfg rest tid v
        (t :: tail.1, tail.2)

/-- Per-row result of the commit phase: the finalized band, the track it
was committed to, its score, and the validator's reason, if any. -/
structure CommitOut where
  band : RowBand
  track : ℕ
  score : ℚ
  violation : Option Reason
deriving DecidableEq, Repr

/-- Modelled from the spec (§2, §5): the batch commit — the only writer of
the track table, run once per screenshot over the suppression survivors in
score order; matched rows update their track, new rows allocate a fresh
`ACTIVE` track. -/
def commitAccepted (cfg : Config) : TrackTable → List Accepted → TrackTable × List CommitOut
  | table, [] => (table, [])
  | table, a :: rest =>
      match a.assign with
      | some tid =>
          let upd := updateTracks cfg table.tracks tid a.band.value
          let next := commitAccepted cfg { table with tracks := upd.1 } rest
          (next.1, ⟨a.band, tid, a.score, upd.2⟩ :: next.2)
      | none =>
          let fresh : PlayerTrack := ⟨table.nextId, [a.band.value], .ACTIVE⟩
          let next := commitAccepted cfg ⟨table.tracks ++ [fresh], table.nextId + 1⟩ rest
          (next.1, ⟨a.band, table.nextId, a.score, none⟩ :: next.2)

/-! #### FieldExtractor (spec §4.7) and the per-screenshot pipeline -/

/-- Modelled from the spec (§4.7): the expected numeric columns of a row. -/
def expectedColumns : ℕ := 3

/-- Modelled from the spec (§4.7): one FieldCrop per expected numeric
column, cropped by the per-column layout priors. -/
def fieldCropsFor (_b : RowBand) : List FieldCrop :=
  (List.range expectedColumns).map (fun i => ⟨i, 1⟩)

/-- Modelled from the spec (§6): the inputs of one screenshot run — the
segmented row bands, the caller-supplied 1-based skip list, and the scored
candidate pairs from the prefilter/precise-matcher stages (whose arrival
order is arbitrary, spec §5: scoring is embarrassingly parallel). -/
structure ScreenshotInput where
  bands : List RowBand
  skip : List ℕ
  cands : List Candidate
deriving DecidableEq, Repr

/-- Injective sort key for candidates: score descending, every remaining
field as tie-break. -/
def candKey (c : Candidate) : List ℚ :=
  [-c.score, (c.band.ordinal : ℚ), c.band.box.x, c.band.box.y, c.band.box.w,
   c.band.box.h, (c.band.value : ℚ), (c.trackId : ℚ)]

/-- Canonical score-ordered candidate list: skipped rows are excluded from
processing (spec §6) and the rest is ordered by score, not arrival order
(spec §5). -/
def orderCandidates (inp : ScreenshotInput) : List Candidate :=
  canonSort candKey (inp.cands.filter (fun c => !(inp.skip.contains c.band.ordinal)))

/-- The competing `(trackId, score)` pairs of one row band. -/
def scoresFor (ordered : List Candidate) (b : RowBand) : List (ℕ × ℚ) :=
  (ordered.filter (fun c => c.band == b)).map (fun c => (c.trackId, c.score))

/-- Per-band matching outcome (spec §4.4/§4.6): an acceptable match, a
reported near-tie, or a new player. -/
def outcomeFor (cfg : Config) (ordered : List Candidate) (b : RowBand) : MatchDecision :=
  decideAssignment cfg (scoresFor ordered b)

/-- Modelled from the spec (§4.5 input): the accepted
`(RowBand, PlayerTrack-or-new)` pairs of one screenshot — every
non-skipped band with either its acceptable match or a new-player slot,
ROI-refined; ambiguous rows are surfaced, not committed. -/
def acceptedOf (cfg : Config) (ordered : List Candidate) (bands : List RowBand)
    (skip : List ℕ) : List Accepted :=
  (bands.filter (fun b => !(skip.contains b.ordinal))).filterMap
    (fun b =>
      match outcomeFor cfg ordered b with
      | .assigned tid s => some (refineAccepted ⟨b, some tid, s⟩)
      | .noMatch => some (refineAccepted ⟨b, none, 0⟩)
      | .ambiguous => none)

/-- Assemble the verdict of one band (spec §3 RowVerdict, §6, §7): skipped
rows are reported present with zero FieldCrops and the "skipped" reason;
committed rows carry their assignment, crops and validator reason;
ambiguous rows carry `MatchAmbiguous`; suppressed rows are reported
dropped. -/
def verdictFor (cfg : Config) (skip : List ℕ) (ordered : List Candidate)
    (outs : List CommitOut) (b : RowBand) : RowVerdict :=
  if skip.contains b.ordinal then
    ⟨b.ordinal, b.box, none, [], 0, some .skipped⟩
  else
    match outs.find? (fun o => o.band.ordinal == b.ordinal) with
    | some o => ⟨b.ordinal, o.band.box, some o.track, fieldCropsFor b, o.score, o.violation⟩
    | none =>
        match outcomeFor cfg ordered b with
        | .ambiguous => ⟨b.ordinal, b.box, none, fieldCropsFor b, 0, some .matchAmbiguous⟩
        | _ => ⟨b.ordinal, b.box, none, fieldCropsFor b, 0, some .suppressed⟩

/-- The state threaded through the per-screenshot pipeline: the immutable
inputs, the persistent track table, and the per-stage scratch results. -/
structure PipeState where
  cfg : Config
  inp : ScreenshotInput
  table : TrackTable
  ordered : List Candidate
  acceptedIn : List Accepted
  survivors : List Accepted
  outs : List CommitOut
  verdicts : List RowVerdict
deriving Repr

/-- Pipeline stage (spec §4.3–§4.4): order the scored candidates
canonically by score. -/
def matchStage (s : PipeState) : PipeState :=
  { s with ordered := orderCandidates s.inp }

/-- Pipeline stage (spec §4.4–§4.5): per-band acceptability decisions and
ROI refinement. -/
def refineStage (s : PipeState) : PipeState :=
  { s with acceptedIn := acceptedOf s.cfg s.ordered s.inp.bands s.inp.skip }

/-- Pipeline stage (spec §4.5): non-maximum suppression in score order. -/
def suppressStage (s : PipeState) : PipeState :=
  { s with survivors := nms s.cfg.iouBound (canonSort accKey s.acceptedIn) }

/-- Pipeline stage (spec §4.6–§4.7, §5): the single batch commit of the
track table, then verdict assembly — the only stage that writes the table. -/
def commitStage (s : PipeState) : PipeState :=
  let committed := commitAccepted s.cfg s.table s.survivors
  { s with
    table := committed.1
    outs := committed.2
    verdicts := s.inp.bands.map (verdictFor s.cfg s.inp.skip s.ordered committed.2) }

/-- The per-screenshot pipeline as the ordered list of its stages
(spec §2: data flows strictly forward; the table is written only by the
commit stage). -/
def pipelineStages : List (PipeState → PipeState) :=
  [matchStage, refineStage, suppressStage, commitStage]

/-- Run a list of stages left to right. -/
def runStages (fs : List (PipeState → PipeState)) (s : PipeState) : PipeState :=
  fs.foldl (fun st f => f st) s

/-- The pipeline state before any stage has run. -/
def initState (cfg : Config) (inp : ScreenshotInput) (table : TrackTable) : PipeState :=
  ⟨cfg, inp, table, [], [], [], [], []⟩

/-- Modelled from the spec (§2, §6): process one screenshot against the
current track-table snapshot, returning the ordered RowVerdicts and the
updated table. -/
def processScreenshot (cfg : Config) (inp : ScreenshotInput) (table : TrackTable) :
    List RowVerdict × TrackTable :=
  let final := runStages pipelineStages (initState cfg inp table)
  (final.verdicts, final.table)

end Imatch

/-! ## Theorems -/

section ZoomTheorems

open ImageZoom

/-- `clamp` lands in `[lo, hi]` whenever the interval is non-degenerate. -/
theorem clamp_mem (v lo hi : ℚ) (h : lo ≤ hi) :
    lo ≤ clamp v lo hi ∧ clamp v lo hi ≤ hi :=
  ⟨le_min h (le_max_left lo v), min_le_left hi (max lo v)⟩

/-- Every event handler keeps the scale inside `[1/2, 4]`. -/
theorem step_scale_mem (e : ZoomEvent) (st : ZoomState)
    (h : 1/2 ≤ st.scale ∧ st.scale ≤ 4) :
    1/2 ≤ (step e st).scale ∧ (step e st).scale ≤ 4 := by
  have hclamp : ∀ v : ℚ, 1/2 ≤ clamp v (1/2) 4 ∧ clamp v (1/2) 4 ≤ 4 :=
    fun v => clamp_mem v (1/2) 4 (by norm_num)
  cases e with
  | wheel down cx cy => simpa [step, zoomBy] using hclamp _
  | keyPlus => simpa [step, zoomBy] using hclamp _
  | keyMinus => simpa [step, zoomBy] using hclamp _
  | keyZero => simp [step, resetTransform]; norm_num
  | buttonZoomIn => simpa [step, zoomBy] using hclamp _
  | buttonZoomOut => simpa [step, zoomBy] using hclamp _
  | buttonReset => simp [step, resetTransform]; norm_num
  | doubleClick cx cy =>
      by_cases hs : st.scale ≤ 1 <;> simp [step, resetTransform, hs] <;> norm_num
  | drag dx dy => simpa [step] using h

/-- C10: in the `ImageZoom` component the zoom scale always stays within
`[0.5, 4]`: starting from the initial scale of 1, no sequence of user
interactions (wheel, keyboard, toolbar, double-click, reset, drag) can
drive the scale outside that interval, because every scale change either
goes through the clamping `zoomBy` or sets a constant inside the
interval. -/
theorem imageZoom_scale_bounded (evs : List ZoomEvent) :
    1/2 ≤ (run evs).scale ∧ (run evs).scale ≤ 4 := by
  have key : ∀ (l : List ZoomEvent) (st : ZoomState),
      1/2 ≤ st.scale ∧ st.scale ≤ 4 →
      1/2 ≤ (l.foldl (fun s e => step e s) st).scale ∧
        (l.foldl (fun s e => step e s) st).scale ≤ 4 := by
    intro l
    induction l with
    | nil => intro st h; simpa using h
    | cons e rest ih => intro st h; exact ih (step e st) (step_scale_mem e st h)
  exact key evs initialState (by norm_num [initialState])

end ZoomTheorems

section ApiTheorems

/-- Joint specification of the `walk` family: each member folds exactly the
`screenIds` of its argument into the running maximum. -/
theorem walk_spec_all :
    (∀ x m, Api.walk x m = (Api.screenIds x).foldl Api.jsMax m) ∧
    (∀ fs m, Api.walkFields fs m = (Api.screenIdsFields fs).foldl Api.jsMax m) ∧
    (∀ k v m, Api.fieldStep k v m = (Api.idsAt k v ++ Api.screenIds v).foldl Api.jsMax m) ∧
    (∀ xs m, Api.walkElems xs m = (Api.screenIdsElems xs).foldl Api.jsMax m) := by
  apply Api.walk.mutual_induct
  · intro xs m ih
    simpa [Api.walk, Api.screenIds] using ih
  · intro fs m ih
    simpa [Api.walk, Api.screenIds] using ih
  · intro x m harr hobj
    cases x with
    | arr xs => exact absurd rfl (harr xs)
    | obj fs => exact absurd rfl (hobj fs)
    | null => simp [Api.walk, Api.screenIds]
    | boolean b => simp [Api.walk, Api.screenIds]
    | num q => simp [Api.walk, Api.screenIds]
    | str s => simp [Api.walk, Api.screenIds]
  · intro m
    simp [Api.walkFields, Api.screenIdsFields]
  · intro k v fs m ih3 ih2
    simp only [Api.walkFields, Api.screenIdsFields]
    rw [ih2, ih3]
    simp [List.foldl_append]
  · intro v m q hq
    cases v <;> simp [Api.numVal] at hq
    subst hq
    simp [Api.fieldStep, Api.idsAt, Api.numVal, Api.screenIds]
  · intro v m hnum hobj ih
    cases v <;> simp [Api.numVal] at hnum <;>
      simp_all [Api.fieldStep, Api.idsAt, Api.isObjectLike, Api.numVal]
  · intro v m hnum hobj
    cases v <;> simp_all [Api.fieldStep, Api.idsAt, Api.isObjectLike, Api.numVal, Api.screenIds]
  · intro k v m hk hobj ih
    cases v <;> simp_all [Api.fieldStep, Api.idsAt, Api.isObjectLike, Api.numVal]
  · intro k v m hk hobj
    cases v <;> simp_all [Api.fieldStep, Api.idsAt, Api.isObjectLike, Api.screenIds]
  · intro m
    simp [Api.walkElems, Api.screenIdsElems]
  · intro x xs m ih1 ih4
    simp only [Api.walkElems, Api.screenIdsElems]
    rw [ih4, ih1, List.foldl_append]

/-- Folding `jsMax` from a seeded accumulator is an ordinary `max` fold. -/
theorem foldl_jsMax_some (l : List ℚ) (q : ℚ) :
    l.foldl Api.jsMax (some q) = some (l.foldl max q) := by
  induction l generalizing q with
  | nil => rfl
  | cons a as ih => simp [Api.jsMax, ih]

/-- Folding `jsMax` from `none` computes the list maximum. -/
theorem foldl_jsMax_none (l : List ℚ) :
    l.foldl Api.jsMax none = l.max? := by
  cases l with
  | nil => rfl
  | cons a as => simp [Api.jsMax, foldl_jsMax_some, List.max?]

/-- C8: `extractLastScreenId` never throws (it is a total function of the
payload) and returns exactly the maximum numeric value stored under a key
named `"screen_id"` anywhere in the nested object/array structure — `none`
(JavaScript `null`) when the payload is `null`, a primitive, or contains no
numeric `screen_id` property. -/
theorem extractLastScreenId_eq_max (p : Api.JsValue) :
    Api.extractLastScreenId p = (Api.screenIds p).max? := by
  rw [Api.extractLastScreenId, walk_spec_all.1, foldl_jsMax_none]

/-- C9: every entry of the `skip_rows` list sent to the backend is a finite
number strictly greater than 0 — non-numeric, non-positive and non-finite
entries are filtered out by `handleProcessAndExport` before the request. -/
theorem skipRows_only_finite_positive (text : String) (n : Api.JsNum)
    (h : n ∈ Api.skipRowsOf text) : ∃ q : ℚ, n = Api.JsNum.finite q ∧ 0 < q := by
  obtain ⟨-, hp⟩ := List.mem_filter.1 h
  cases n <;> simp [Api.isFinite, Api.gtZero] at hp
  exact ⟨_, rfl, hp⟩

/-- Witness for C9 at the concrete input `"1, foo, -2, 0, 3"`. -/
theorem skipRows_only_finite_positive_witness :
    Api.JsNum.finite 1 ∈ Api.skipRowsOf "1, foo, -2, 0, 3" ∧
      ∃ q : ℚ, Api.JsNum.finite 1 = Api.JsNum.finite q ∧ 0 < q :=
  ⟨by decide, skipRows_only_finite_positive "1, foo, -2, 0, 3" (Api.JsNum.finite 1) (by decide)⟩

end ApiTheorems

section ImatchTheorems

open Imatch

/-- `canonSort` with an injective key is permutation-invariant: both results
are sorted for the same total, transitive, antisymmetric order and are
permutations of each other, hence equal. -/
theorem canonSort_perm_eq {α : Type} (key : α → List ℚ)
    (hinj : Function.Injective key) {l1 l2 : List α}
    (h : List.Perm l1 l2) : canonSort key l1 = canonSort key l2 := by
  haveI : IsTotal α (fun a b => key a ≤ key b) := ⟨fun a b => le_total _ _⟩
  haveI : IsTrans α (fun a b => key a ≤ key b) := ⟨fun a b c h1 h2 => le_trans h1 h2⟩
  haveI : IsAntisymm α (fun a b => key a ≤ key b) :=
    ⟨fun a b h1 h2 => hinj (le_antisymm h1 h2)⟩
  simp only [canonSort]
  exact List.eq_of_perm_of_sorted
    (((List.perm_insertionSort _ l1).trans h).trans (List.perm_insertionSort _ l2).symm)
    (List.sorted_insertionSort _ l1) (List.sorted_insertionSort _ l2)

/-- The candidate sort key lists every field, so it is injective. -/
theorem candKey_injective : Function.Injective candKey := by
  intro a b h
  obtain ⟨⟨⟨ax, ay, aw, ah⟩, aord, aval⟩, atid, asc⟩ := a
  obtain ⟨⟨⟨bx, b2, bw, bh⟩, bord, bval⟩, btid, bsc⟩ := b
  simp only [candKey, List.cons.injEq, and_true, neg_inj, Nat.cast_inj,
    Int.cast_inj] at h
  simp_all

/-- C1: the pipeline is a deterministic function of the screenshot's inputs
and the track-table snapshot: running it on the same screenshot against an
identical snapshot yields identical RowVerdicts and table (geometry,
assignment, scores), even when the per-row candidate scores arrive in a
different order — assignment and suppression order by score, not arrival
order. -/
theorem processScreenshot_deterministic (cfg : Config) (bands : List RowBand)
    (skip : List ℕ) (table : TrackTable) (cands1 cands2 : List Candidate)
    (h : List.Perm cands1 cands2) :
    processScreenshot cfg ⟨bands, skip, cands1⟩ table =
      processScreenshot cfg ⟨bands, skip, cands2⟩ table := by
  have hord : orderCandidates ⟨bands, skip, cands1⟩ =
      orderCandidates ⟨bands, skip, cands2⟩ :=
    canonSort_perm_eq candKey candKey_injective (h.filter _)
  simp only [processScreenshot, runStages, pipelineStages, List.foldl,
    matchStage, refineStage, suppressStage, commitStage, initState, hord]

end ImatchTheorems

section ImatchTheorems2

open Imatch

/-- Interval overlap length is symmetric. -/
theorem interLen_comm (a1 w1 a2 w2 : ℚ) : interLen a1 w1 a2 w2 = interLen a2 w2 a1 w1 := by
  simp only [interLen, min_comm (a1 + w1), max_comm a1]

/-- Intersection area is symmetric. -/
theorem interArea_comm (a b : Box) : interArea a b = interArea b a := by
  simp only [interArea, interLen_comm]

/-- Union area is symmetric. -/
theorem unionArea_comm (a b : Box) : unionArea a b = unionArea b a := by
  simp only [unionArea, interArea_comm, add_comm]

/-- Intersection over union is symmetric. -/
theorem iou_comm (a b : Box) : iou a b = iou b a := by
  simp only [iou, interArea_comm, unionArea_comm]

/-- The greedy fold of non-maximum suppression only ever appends a
candidate whose overlap with everything already accepted is below the
bound, so its output is pairwise below the bound. -/
theorem nms_pairwise (bound : ℚ) (l : List Accepted) :
    (nms bound l).Pairwise (fun a b => iou a.band.box b.band.box < bound) := by
  have key : ∀ (l acc : List Accepted),
      acc.Pairwise (fun a b => iou a.band.box b.band.box < bound) →
      (l.foldl (fun acc c => if nmsAccept bound acc c then acc ++ [c] else acc)
          acc).Pairwise (fun a b => iou a.band.box b.band.box < bound) := by
    intro l
    induction l with
    | nil => intro acc h; simpa using h
    | cons c rest ih =>
        intro acc h
        simp only [List.foldl]
        cases hacc : nmsAccept bound acc c with
        | true =>
            rw [if_pos (by simp [hacc])]
            refine ih _ ?_
            rw [List.pairwise_append]
            refine ⟨h, List.pairwise_singleton _ _, ?_⟩
            intro a ha b hb
            rw [List.mem_singleton] at hb
            subst hb
            have := (List.all_eq_true.1 hacc) a ha
            exact of_decide_eq_true this
        | false =>
            rw [if_neg (by simp [hacc])]
            exact ih _ h
  simpa [nms] using key l [] (List.Pairwise.nil)

/-- C2: the finalized RowBands of the ROIRefiner + Suppressor stage are
pairwise non-overlapping beyond the configured bound: any two distinct
suppression survivors of one screenshot have intersection-over-union at
most `cfg.iouBound`. -/
theorem suppression_pairwise_iou (cfg : Config) (inp : ScreenshotInput)
    (table : TrackTable) :
    ∀ a ∈ (runStages pipelineStages (initState cfg inp table)).survivors,
      ∀ b ∈ (runStages pipelineStages (initState cfg inp table)).survivors,
        a ≠ b → iou a.band.box b.band.box ≤ cfg.iouBound := by
  have hsurv : (runStages pipelineStages (initState cfg inp table)).survivors =
      nms cfg.iouBound (canonSort accKey
        (acceptedOf cfg (orderCandidates inp) inp.bands inp.skip)) := by
    simp only [runStages, pipelineStages, List.foldl, matchStage, refineStage,
      suppressStage, commitStage, initState]
  rw [hsurv]
  have hsym : Symmetric (fun a b : Accepted => iou a.band.box b.band.box ≤ cfg.iouBound) := by
    intro a b hab
    show iou b.band.box a.band.box ≤ cfg.iouBound
    rw [iou_comm]
    exact hab
  have hp := (nms_pairwise cfg.iouBound
      (canonSort accKey (acceptedOf cfg (orderCandidates inp) inp.bands inp.skip))).imp
    (fun h => le_of_lt h)
  exact fun a ha b hb hne => hp.forall hsym ha hb hne

end ImatchTheorems2

section ImatchTheorems3

open Imatch

/-- Hamming distance of a fingerprint to itself is zero. -/
theorem hamming_self (f : List Bool) : hamming f f = 0 := by
  induction f with
  | nil => rfl
  | cons b rest ih => simpa [hamming, List.count_cons] using ih

/-- C3: the perceptual fingerprint of a crop compared against the
fingerprint of the same crop has Hamming distance 0, so a self-pair always
passes the (positive) fingerprint distance threshold and is never rejected
by the fingerprint prefilter. -/
theorem fingerprint_self_never_rejected (cfg : Config) (crop : Crop)
    (h : 0 < cfg.fpThreshold) :
    hamming (dHash crop) (dHash crop) = 0 ∧
      fingerprintPass cfg (dHash crop) (dHash crop) = true := by
  refine ⟨hamming_self _, ?_⟩
  simp [fingerprintPass, hamming_self, h]

/-- Witness for C3 at a concrete crop and a configuration with fingerprint
threshold 1. -/
theorem fingerprint_self_never_rejected_witness :
    0 < (Config.mk 1 1 1 (1/2) (1/20) (3/10) 1 8 50).fpThreshold ∧
      (hamming (dHash [[1, 2], [3, 4]]) (dHash [[1, 2], [3, 4]]) = 0 ∧
        fingerprintPass (Config.mk 1 1 1 (1/2) (1/20) (3/10) 1 8 50)
          (dHash [[1, 2], [3, 4]]) (dHash [[1, 2], [3, 4]]) = true) :=
  ⟨by decide, fingerprint_self_never_rejected _ [[1, 2], [3, 4]] (by decide)⟩

/-- C4: an ACTIVE track accepting a numeric observation smaller than its
last accepted value moves to FLAGGED with a `ValidationViolation`, while a
non-decreasing sequence within the plausible delta raises no violation:
history `[100, 150, 140]` flags the third observation and leaves the track
FLAGGED, history `[100, 150, 200]` produces no violation. -/
theorem monotonicity_validation (cfg : Config) (hd : 50 ≤ cfg.maxDelta) :
    (∀ (t : PlayerTrack) (last v : ℤ), t.history.getLast? = some last → v < last →
        (acceptObs cfg t v).1.state = TrackState.FLAGGED ∧
          (acceptObs cfg t v).2 = some Reason.validationViolation) ∧
      (runHistory cfg [100, 150, 140]).2 = [none, none, some Reason.validationViolation] ∧
      (runHistory cfg [100, 150, 140]).1.state = TrackState.FLAGGED ∧
      (runHistory cfg [100, 150, 200]).2 = [none, none, none] := by
  have h50 : ¬cfg.maxDelta < 50 := not_lt.2 hd
  refine ⟨?_, ?_, ?_, ?_⟩
  · intro t last v hlast hv
    constructor <;> simp [acceptObs, hlast, hv]
  · simp +decide [runHistory, acceptObs, h50]
  · simp +decide [runHistory, acceptObs, h50]
  · simp +decide [runHistory, acceptObs, h50]

/-- Witness for C4 at a configuration with maximum plausible delta 50. -/
theorem monotonicity_validation_witness :
    50 ≤ (Config.mk 1 1 1 (1/2) (1/20) (3/10) 8 8 50).maxDelta ∧
      ((∀ (t : PlayerTrack) (last v : ℤ), t.history.getLast? = some last → v < last →
          (acceptObs (Config.mk 1 1 1 (1/2) (1/20) (3/10) 8 8 50) t v).1.state =
              TrackState.FLAGGED ∧
            (acceptObs (Config.mk 1 1 1 (1/2) (1/20) (3/10) 8 8 50) t v).2 =
              some Reason.validationViolation) ∧
        (runHistory (Config.mk 1 1 1 (1/2) (1/20) (3/10) 8 8 50) [100, 150, 140]).2 =
          [none, none, some Reason.validationViolation] ∧
        (runHistory (Config.mk 1 1 1 (1/2) (1/20) (3/10) 8 8 50) [100, 150, 140]).1.state =
          TrackState.FLAGGED ∧
        (runHistory (Config.mk 1 1 1 (1/2) (1/20) (3/10) 8 8 50) [100, 150, 200]).2 =
          [none, none, none]) :=
  ⟨by decide, monotonicity_validation _ (by decide)⟩

end ImatchTheorems3

section ImatchTheorems4

open Imatch

/-- `ratDiv` is exact rational division. -/
theorem ratDiv_eq_div (a b : ℚ) : ratDiv a b = a / b := by
  rw [ratDiv, Rat.divInt_eq_div]
  push_cast
  rcases eq_or_ne b 0 with rfl | hb
  · simp
  · have had : ((a.den : ℚ)) ≠ 0 := by
      exact_mod_cast a.den_nz
    have hbd : ((b.den : ℚ)) ≠ 0 := by
      exact_mod_cast b.den_nz
    have ha : (a.num : ℚ) = a * a.den := (div_eq_iff had).1 (Rat.num_div_den a)
    have hb2 : (b.num : ℚ) = b * b.den := (div_eq_iff hbd).1 (Rat.num_div_den b)
    have hbn : (b.num : ℚ) ≠ 0 := by
      rw [hb2]
      exact mul_ne_zero hb hbd
    field_simp
    rw [ha, hb2]
    ring

/-- C5: a row is assigned to a track only if that track's score exceeds the
acceptance threshold AND beats the second-best competing score by at least
the minimum margin; when the margin fails the result is `MatchAmbiguous`,
never a silent assignment.  With margin 0.05: scores 0.81 vs 0.80 are
ambiguous, scores 0.90 vs 0.40 assign the row to the 0.90 track. -/
theorem margin_tiebreak (cfg : Config) (hmargin : cfg.minMargin = 1/20)
    (hacc : cfg.accThreshold < 4/5) :
    (∀ (scored : List (ℕ × ℚ)) (t1 t2 : ℕ) (s1 s2 : ℚ) (rest : List (ℕ × ℚ)),
        rankScores scored = (t1, s1) :: (t2, s2) :: rest →
        cfg.accThreshold < s1 → s1 - s2 < cfg.minMargin →
        decideAssignment cfg scored = MatchDecision.ambiguous) ∧
      decideAssignment cfg [(1, 81/100), (2, 80/100)] = MatchDecision.ambiguous ∧
      decideAssignment cfg [(1, 9/10), (2, 2/5)] = MatchDecision.assigned 1 (9/10) := by
  refine ⟨?_, ?_, ?_⟩
  · intro scored t1 t2 s1 s2 rest hrank h1 h2
    simp [decideAssignment, hrank, not_le.2 h1, not_le.2 h2]
  · have hle1 : scoreKey (1, (81:ℚ)/100) ≤ scoreKey (2, (80:ℚ)/100) := by
      simp only [scoreKey]
      exact le_of_lt (List.Lex.rel (by norm_num))
    have hrank1 : rankScores [(1, (81:ℚ)/100), (2, (80:ℚ)/100)] =
        [(1, (81:ℚ)/100), (2, (80:ℚ)/100)] := by
      simp [rankScores, canonSort, List.insertionSort, List.orderedInsert, hle1]
    have hacc1 : ¬((81:ℚ)/100 ≤ cfg.accThreshold) :=
      not_le.2 (lt_of_lt_of_le hacc (by norm_num))
    have hmar1 : ¬(cfg.minMargin ≤ (81:ℚ)/100 - 80/100) := by
      rw [hmargin]
      norm_num
    simp [decideAssignment, hrank1, hacc1, hmar1]
  · have hle2 : scoreKey (1, (9:ℚ)/10) ≤ scoreKey (2, (2:ℚ)/5) := by
      simp only [scoreKey]
      exact le_of_lt (List.Lex.rel (by norm_num))
    have hrank2 : rankScores [(1, (9:ℚ)/10), (2, (2:ℚ)/5)] =
        [(1, (9:ℚ)/10), (2, (2:ℚ)/5)] := by
      simp [rankScores, canonSort, List.insertionSort, List.orderedInsert, hle2]
    have hacc2 : ¬((9:ℚ)/10 ≤ cfg.accThreshold) :=
      not_le.2 (lt_of_lt_of_le hacc (by norm_num))
    have hmar2 : cfg.minMargin ≤ (9:ℚ)/10 - 2/5 := by
      rw [hmargin]
      norm_num
    simp [decideAssignment, hrank2, hacc2, hmar2]

/-- Witness for C5 at a configuration with margin 1/20 and acceptance
threshold 0. -/
theorem margin_tiebreak_witness :
    (Config.mk 1 1 1 0 (1/20) 1 8 8 50).minMargin = 1/20 ∧
      (Config.mk 1 1 1 0 (1/20) 1 8 8 50).accThreshold < 4/5 ∧
      decideAssignment (Config.mk 1 1 1 0 (1/20) 1 8 8 50) [(1, 81/100), (2, 80/100)] =
        MatchDecision.ambiguous ∧
      decideAssignment (Config.mk 1 1 1 0 (1/20) 1 8 8 50) [(1, 9/10), (2, 2/5)] =
        MatchDecision.assigned 1 (9/10) :=
  ⟨rfl, by simp,
    (margin_tiebreak (Config.mk 1 1 1 0 (1/20) 1 8 8 50) rfl (by simp)).2.1,
    (margin_tiebreak (Config.mk 1 1 1 0 (1/20) 1 8 8 50) rfl (by simp)).2.2⟩

/-- C6: a skipped row is still segmented and reported: for every band of
the screenshot whose ordinal is in the caller-supplied skip list, the
RowVerdicts contain a verdict at that ordinal with zero FieldCrops and the
"skipped" reason code. -/
theorem skip_rows_reported (cfg : Config) (inp : ScreenshotInput)
    (table : TrackTable) (b : RowBand) (hb : b ∈ inp.bands)
    (hskip : b.ordinal ∈ inp.skip) :
    ∃ v ∈ (processScreenshot cfg inp table).1,
      v.ordinal = b.ordinal ∧ v.fieldCrops = [] ∧ v.reason = some Reason.skipped := by
  have ho : (processScreenshot cfg inp table).1 =
      inp.bands.map (verdictFor cfg inp.skip (orderCandidates inp)
        ((commitAccepted cfg table (nms cfg.iouBound (canonSort accKey
          (acceptedOf cfg (orderCandidates inp) inp.bands inp.skip)))).2)) := by
    simp only [processScreenshot, runStages, pipelineStages, List.foldl,
      matchStage, refineStage, suppressStage, commitStage, initState]
  rw [ho]
  have hc : inp.skip.contains b.ordinal = true := List.elem_iff.2 hskip
  exact ⟨verdictFor cfg inp.skip (orderCandidates inp)
      ((commitAccepted cfg table (nms cfg.iouBound (canonSort accKey
        (acceptedOf cfg (orderCandidates inp) inp.bands inp.skip)))).2) b,
    List.mem_map.2 ⟨b, hb, rfl⟩, by simp [verdictFor, hc, hskip]⟩

/-- Witness for C6: skip list `[3]` on a screenshot with bands at ordinals
1 and 3. -/
theorem skip_rows_reported_witness :
    Imatch.RowBand.mk ⟨0, 6, 10, 2⟩ 3 300 ∈
        (ScreenshotInput.mk [⟨⟨0, 0, 10, 2⟩, 1, 100⟩, ⟨⟨0, 6, 10, 2⟩, 3, 300⟩] [3] []).bands ∧
      (Imatch.RowBand.mk ⟨0, 6, 10, 2⟩ 3 300).ordinal ∈
        (ScreenshotInput.mk [⟨⟨0, 0, 10, 2⟩, 1, 100⟩, ⟨⟨0, 6, 10, 2⟩, 3, 300⟩] [3] []).skip ∧
      ∃ v ∈ (processScreenshot (Config.mk 1 1 1 1 1 1 8 8 50)
          (ScreenshotInput.mk [⟨⟨0, 0, 10, 2⟩, 1, 100⟩, ⟨⟨0, 6, 10, 2⟩, 3, 300⟩] [3] [])
          (TrackTable.mk [] 0)).1,
        v.ordinal = (Imatch.RowBand.mk ⟨0, 6, 10, 2⟩ 3 300).ordinal ∧
          v.fieldCrops = [] ∧ v.reason = some Reason.skipped :=
  ⟨by decide, by decide,
    skip_rows_reported (Config.mk 1 1 1 1 1 1 8 8 50)
      (ScreenshotInput.mk [⟨⟨0, 0, 10, 2⟩, 1, 100⟩, ⟨⟨0, 6, 10, 2⟩, 3, 300⟩] [3] [])
      (TrackTable.mk [] 0) (Imatch.RowBand.mk ⟨0, 6, 10, 2⟩ 3 300) (by decide) (by decide)⟩

/-- C7: the track table is written only by the final batch-commit stage:
aborting the pipeline after any prefix of its stages leaves the caller's
table either completely unchanged (abort before the commit) or equal to the
fully committed table — never a partial mutation. -/
theorem batch_commit_atomic (cfg : Config) (inp : ScreenshotInput)
    (table : TrackTable) (k : ℕ) :
    (runStages (pipelineStages.take k) (initState cfg inp table)).table = table ∨
      (runStages (pipelineStages.take k) (initState cfg inp table)).table =
        (processScreenshot cfg inp table).2 := by
  match k with
  | 0 => exact Or.inl rfl
  | 1 => exact Or.inl rfl
  | 2 => exact Or.inl rfl
  | 3 => exact Or.inl rfl
  | (n + 4) =>
      right
      rw [List.take_of_length_le (by simp [pipelineStages])]
      rfl

end ImatchTheorems4

section ImatchWitnesses

open Imatch

/-- Witness for C1: the same candidate scores in two arrival orders yield
the same pipeline result. -/
theorem processScreenshot_deterministic_witness :
    List.Perm
        [Candidate.mk ⟨⟨0, 0, 10, 2⟩, 1, 100⟩ 1 2, Candidate.mk ⟨⟨0, 0, 10, 2⟩, 1, 100⟩ 2 1]
        [Candidate.mk ⟨⟨0, 0, 10, 2⟩, 1, 100⟩ 2 1, Candidate.mk ⟨⟨0, 0, 10, 2⟩, 1, 100⟩ 1 2] ∧
      processScreenshot (Config.mk 1 1 1 0 1 1 8 8 50)
          (ScreenshotInput.mk [⟨⟨0, 0, 10, 2⟩, 1, 100⟩] []
            [Candidate.mk ⟨⟨0, 0, 10, 2⟩, 1, 100⟩ 1 2,
              Candidate.mk ⟨⟨0, 0, 10, 2⟩, 1, 100⟩ 2 1])
          (TrackTable.mk [⟨1, [90], .ACTIVE⟩, ⟨2, [80], .ACTIVE⟩] 3) =
        processScreenshot (Config.mk 1 1 1 0 1 1 8 8 50)
          (ScreenshotInput.mk [⟨⟨0, 0, 10, 2⟩, 1, 100⟩] []
            [Candidate.mk ⟨⟨0, 0, 10, 2⟩, 1, 100⟩ 2 1,
              Candidate.mk ⟨⟨0, 0, 10, 2⟩, 1, 100⟩ 1 2])
          (TrackTable.mk [⟨1, [90], .ACTIVE⟩, ⟨2, [80], .ACTIVE⟩] 3) :=
  ⟨List.Perm.swap _ _ _,
    processScreenshot_deterministic (Config.mk 1 1 1 0 1 1 8 8 50)
      [⟨⟨0, 0, 10, 2⟩, 1, 100⟩] []
      (TrackTable.mk [⟨1, [90], .ACTIVE⟩, ⟨2, [80], .ACTIVE⟩] 3)
      [Candidate.mk ⟨⟨0, 0, 10, 2⟩, 1, 100⟩ 1 2, Candidate.mk ⟨⟨0, 0, 10, 2⟩, 1, 100⟩ 2 1]
      [Candidate.mk ⟨⟨0, 0, 10, 2⟩, 1, 100⟩ 2 1, Candidate.mk ⟨⟨0, 0, 10, 2⟩, 1, 100⟩ 1 2]
      (List.Perm.swap _ _ _)⟩

/-- Witness for C2: two distinct suppression survivors of a concrete
screenshot, whose IoU is within the bound. -/
theorem suppression_pairwise_iou_witness :
    Accepted.mk ⟨⟨0, 0, 10, 2⟩, 1, 100⟩ none 0 ∈
        (runStages pipelineStages (initState (Config.mk 1 1 1 1 1 1 8 8 50)
          (ScreenshotInput.mk [⟨⟨0, 0, 10, 2⟩, 1, 100⟩, ⟨⟨0, 6, 10, 2⟩, 2, 200⟩] [] [])
          (TrackTable.mk [] 0))).survivors ∧
      Accepted.mk ⟨⟨0, 6, 10, 2⟩, 2, 200⟩ none 0 ∈
        (runStages pipelineStages (initState (Config.mk 1 1 1 1 1 1 8 8 50)
          (ScreenshotInput.mk [⟨⟨0, 0, 10, 2⟩, 1, 100⟩, ⟨⟨0, 6, 10, 2⟩, 2, 200⟩] [] [])
          (TrackTable.mk [] 0))).survivors ∧
      Accepted.mk ⟨⟨0, 0, 10, 2⟩, 1, 100⟩ none 0 ≠
        Accepted.mk ⟨⟨0, 6, 10, 2⟩, 2, 200⟩ none 0 ∧
      iou (Accepted.mk ⟨⟨0, 0, 10, 2⟩, 1, 100⟩ none 0).band.box
          (Accepted.mk ⟨⟨0, 6, 10, 2⟩, 2, 200⟩ none 0).band.box ≤
        (Config.mk 1 1 1 1 1 1 8 8 50).iouBound :=
  ⟨by with_unfolding_all decide, by with_unfolding_all decide, by decide,
    suppression_pairwise_iou (Config.mk 1 1 1 1 1 1 8 8 50)
      (ScreenshotInput.mk [⟨⟨0, 0, 10, 2⟩, 1, 100⟩, ⟨⟨0, 6, 10, 2⟩, 2, 200⟩] [] [])
      (TrackTable.mk [] 0)
      (Accepted.mk ⟨⟨0, 0, 10, 2⟩, 1, 100⟩ none 0) (by with_unfolding_all decide)
      (Accepted.mk ⟨⟨0, 6, 10, 2⟩, 2, 200⟩ none 0) (by with_unfolding_all decide)
      (by decide)⟩

end ImatchWitnesses
